import Mathlib

/-!
Verification development for the rocket_sim repository.

The C sources are shallowly embedded over exact rational arithmetic: every
C `double` becomes a `Rat`, and the C library square root `sqrt` becomes an
explicit function parameter `s : Rat -> Rat`, so every theorem quantifies over
the square-root routine and theorems that need the true square root receive
local hypotheses pinning `s` down at the evaluated points.  C arrays become
Lean lists; the bounded in-place writes of the C code become `List.set`.
-/

namespace RocketSim

/-- SOFTENING from include/nbody.h: softening parameter 0.1. -/
def SOFTENING : ℚ := 1/10

/-- STEPS from include/nbody.h: default total step count 5000. -/
def STEPS : ℕ := 5000

/-- WIDTH from include/nbody.h: image width 800. -/
def WIDTH : ℕ := 800

/-- HEIGHT from include/nbody.h: image height 800. -/
def HEIGHT : ℕ := 800

/-- Body from include/nbody.h: a gravitating point mass. -/
structure Body where
  x : ℚ
  y : ℚ
  vx : ℚ
  vy : ℚ
  ax : ℚ
  ay : ℚ
  mass : ℚ
deriving DecidableEq, Repr

instance : Inhabited Body := ⟨⟨0, 0, 0, 0, 0, 0, 0⟩⟩

/-- Read a body from the array, as the C code indexes bodies[k]. -/
def getB (bs : List Body) (k : ℕ) : Body := bs.getD k default

/-- The pair force components fx, fy of physics.c lines 25-37: displacement
from body bi to body bj, softened squared distance, distance via the
square-root routine s, magnitude g / dist_sq, components along the
displacement unit vector. -/
def pairForce (s : ℚ → ℚ) (g : ℚ) (bi bj : Body) : ℚ × ℚ :=
  let dx := bj.x - bi.x
  let dy := bj.y - bi.y
  let dist_sq := dx * dx + dy * dy + SOFTENING * SOFTENING
  let dist := s dist_sq
  let force := g / dist_sq
  (force * dx / dist, force * dy / dist)

/-- One iteration of the inner pair loop of compute_forces (physics.c lines
24-43) for the pair p = (i, j): adds the force scaled by the partner mass to
body i and subtracts it scaled by the mass of body i from body j. -/
def stepPair (s : ℚ → ℚ) (g : ℚ) (bs : List Body) (p : ℕ × ℕ) : List Body :=
  let bi := getB bs p.1
  let bj := getB bs p.2
  let f := pairForce s g bi bj
  let bs1 := bs.set p.1
    { bi with ax := bi.ax + f.1 * bj.mass, ay := bi.ay + f.2 * bj.mass }
  bs1.set p.2
    { bj with ax := bj.ax - f.1 * bi.mass, ay := bj.ay - f.2 * bi.mass }

/-- The iteration order of the two nested loops of compute_forces:
all pairs (i, j) with i < j < n, ascending i then ascending j. -/
def pairsList (n : ℕ) : List (ℕ × ℕ) :=
  (List.range n).flatMap (fun i => (List.range' (i+1) (n - (i+1))).map (fun j => (i, j)))

/-- The acceleration reset of compute_forces lines 16-19. -/
def resetAccel (b : Body) : Body := { b with ax := 0, ay := 0 }

/-- compute_forces from physics.c lines 14-46: reset all accelerations, then
fold the pair update over all pairs i < j in loop order. -/
def compute_forces (s : ℚ → ℚ) (g : ℚ) (bs : List Body) : List Body :=
  (pairsList bs.length).foldl (stepPair s g) (bs.map resetAccel)

/-- Contribution of the loop iteration for pair p to the ax accumulator of
body k, read off the claim: the force scaled by mass_j for body i, its
negation scaled by mass_i for body j, nothing for other bodies.  It only
reads positions and masses of the given array. -/
def contribAx (s : ℚ → ℚ) (g : ℚ) (bs : List Body) (k : ℕ) (p : ℕ × ℕ) : ℚ :=
  if k = p.1 then (pairForce s g (getB bs p.1) (getB bs p.2)).1 * (getB bs p.2).mass
  else if k = p.2 then -((pairForce s g (getB bs p.1) (getB bs p.2)).1 * (getB bs p.1).mass)
  else 0

/-- Contribution of the loop iteration for pair p to the ay accumulator. -/
def contribAy (s : ℚ → ℚ) (g : ℚ) (bs : List Body) (k : ℕ) (p : ℕ × ℕ) : ℚ :=
  if k = p.1 then (pairForce s g (getB bs p.1) (getB bs p.2)).2 * (getB bs p.2).mass
  else if k = p.2 then -((pairForce s g (getB bs p.1) (getB bs p.2)).2 * (getB bs p.1).mass)
  else 0

/-- The kinematic data of a body: everything except the accelerations. -/
def kin (b : Body) : ℚ × ℚ × ℚ × ℚ × ℚ := (b.x, b.y, b.vx, b.vy, b.mass)

theorem getD_set_self {α : Type} (l : List α) (i : ℕ) (a d : α) (h : i < l.length) :
    (l.set i a).getD i d = a := by
  simp [List.getD, List.getElem?_set, h]

theorem getD_set_ne {α : Type} (l : List α) (i j : ℕ) (a d : α) (h : i ≠ j) :
    (l.set i a).getD j d = l.getD j d := by
  simp [List.getD, List.getElem?_set, h]

theorem getD_map {α β : Type} (l : List α) (f : α → β) (k : ℕ) (d : α) :
    (l.map f).getD k (f d) = f (l.getD k d) := by
  simp [List.getD, List.getElem?_map]

theorem length_stepPair (s : ℚ → ℚ) (g : ℚ) (bs : List Body) (p : ℕ × ℕ) :
    (stepPair s g bs p).length = bs.length := by
  simp [stepPair]

theorem getD_set_split {α : Type} (l : List α) (i j : ℕ) (a d : α) :
    (l.set i a).getD j d = if i = j ∧ i < l.length then a else l.getD j d := by
  by_cases hij : i = j
  · subst hij
    by_cases hlt : i < l.length
    · simp [getD_set_self _ _ _ _ hlt, hlt]
    · simp [hlt, List.set_eq_of_length_le (Nat.le_of_not_lt hlt)]
  · simp [getD_set_ne _ _ _ _ _ hij, hij]

theorem kin_stepPair (s : ℚ → ℚ) (g : ℚ) (bs : List Body) (p : ℕ × ℕ) (k : ℕ) :
    kin (getB (stepPair s g bs p) k) = kin (getB bs k) := by
  unfold stepPair getB
  rw [getD_set_split, getD_set_split]
  split_ifs with h1 h2
  · obtain ⟨rfl, _⟩ := h1; simp [kin, getB]
  · obtain ⟨rfl, _⟩ := h2; simp [kin, getB]
  · rfl

theorem pairForce_congr (s : ℚ → ℚ) (g : ℚ) {bi bj bi2 bj2 : Body}
    (h1 : bi.x = bi2.x) (h2 : bi.y = bi2.y) (h3 : bj.x = bj2.x) (h4 : bj.y = bj2.y) :
    pairForce s g bi bj = pairForce s g bi2 bj2 := by
  unfold pairForce; rw [h1, h2, h3, h4]

theorem kin_fields {b b2 : Body} (h : kin b = kin b2) :
    b.x = b2.x ∧ b.y = b2.y ∧ b.vx = b2.vx ∧ b.vy = b2.vy ∧ b.mass = b2.mass := by
  simp only [kin, Prod.mk.injEq] at h
  exact ⟨h.1, h.2.1, h.2.2.1, h.2.2.2.1, h.2.2.2.2⟩

theorem contrib_congr (s : ℚ → ℚ) (g : ℚ) {bs bs2 : List Body}
    (h : ∀ m, kin (getB bs m) = kin (getB bs2 m)) (k : ℕ) (p : ℕ × ℕ) :
    contribAx s g bs k p = contribAx s g bs2 k p ∧
    contribAy s g bs k p = contribAy s g bs2 k p := by
  have hf : pairForce s g (getB bs p.1) (getB bs p.2)
      = pairForce s g (getB bs2 p.1) (getB bs2 p.2) :=
    pairForce_congr s g (kin_fields (h p.1)).1 (kin_fields (h p.1)).2.1
      (kin_fields (h p.2)).1 (kin_fields (h p.2)).2.1
  have hm1 : (getB bs p.1).mass = (getB bs2 p.1).mass := (kin_fields (h p.1)).2.2.2.2
  have hm2 : (getB bs p.2).mass = (getB bs2 p.2).mass := (kin_fields (h p.2)).2.2.2.2
  unfold contribAx contribAy
  rw [hf, hm1, hm2]
  exact ⟨rfl, rfl⟩

theorem getB_stepPair (s : ℚ → ℚ) (g : ℚ) (bs : List Body) (p : ℕ × ℕ) (k : ℕ) :
    getB (stepPair s g bs p) k =
      if p.2 = k ∧ p.2 < bs.length then
        { getB bs p.2 with
          ax := (getB bs p.2).ax - (pairForce s g (getB bs p.1) (getB bs p.2)).1 * (getB bs p.1).mass,
          ay := (getB bs p.2).ay - (pairForce s g (getB bs p.1) (getB bs p.2)).2 * (getB bs p.1).mass }
      else if p.1 = k ∧ p.1 < bs.length then
        { getB bs p.1 with
          ax := (getB bs p.1).ax + (pairForce s g (getB bs p.1) (getB bs p.2)).1 * (getB bs p.2).mass,
          ay := (getB bs p.1).ay + (pairForce s g (getB bs p.1) (getB bs p.2)).2 * (getB bs p.2).mass }
      else getB bs k := by
  unfold stepPair getB
  rw [getD_set_split, getD_set_split, List.length_set]

theorem accel_stepPair (s : ℚ → ℚ) (g : ℚ) (bs : List Body) (p : ℕ × ℕ) (k : ℕ)
    (hp1 : p.1 < bs.length) (hp2 : p.2 < bs.length) (hne : p.1 ≠ p.2) :
    (getB (stepPair s g bs p) k).ax = (getB bs k).ax + contribAx s g bs k p ∧
    (getB (stepPair s g bs p) k).ay = (getB bs k).ay + contribAy s g bs k p := by
  rw [getB_stepPair]
  by_cases hk2 : p.2 = k
  · rw [if_pos ⟨hk2, hp2⟩]
    unfold contribAx contribAy
    have hne2 : ¬k = p.1 := fun h => hne (h ▸ hk2.symm ▸ rfl)
    rw [if_neg hne2, if_pos hk2.symm, if_neg hne2, if_pos hk2.symm, ← hk2]
    constructor <;> ring
  · rw [if_neg (fun h => hk2 h.1)]
    by_cases hk1 : p.1 = k
    · rw [if_pos ⟨hk1, hp1⟩]
      unfold contribAx contribAy
      rw [if_pos hk1.symm, if_pos hk1.symm, ← hk1]
      exact ⟨rfl, rfl⟩
    · rw [if_neg (fun h => hk1 h.1)]
      unfold contribAx contribAy
      rw [if_neg (fun h => hk1 h.symm), if_neg (fun h => hk2 h.symm),
        if_neg (fun h => hk1 h.symm), if_neg (fun h => hk2 h.symm)]
      simp

theorem accel_foldl (s : ℚ → ℚ) (g : ℚ) (ps : List (ℕ × ℕ)) (bs0 : List Body) :
    ∀ bs : List Body, bs.length = bs0.length →
    (∀ m, kin (getB bs m) = kin (getB bs0 m)) →
    (∀ p ∈ ps, p.1 < bs0.length ∧ p.2 < bs0.length ∧ p.1 ≠ p.2) →
    ∀ k, (getB (ps.foldl (stepPair s g) bs) k).ax
           = (getB bs k).ax + (ps.map (contribAx s g bs0 k)).sum ∧
         (getB (ps.foldl (stepPair s g) bs) k).ay
           = (getB bs k).ay + (ps.map (contribAy s g bs0 k)).sum := by
  induction ps with
  | nil => intro bs _ _ _ k; simp
  | cons p ps ih =>
    intro bs hlen hkin hps k
    obtain ⟨hp1, hp2, hne⟩ := hps p (List.mem_cons_self p ps)
    have hstep := accel_stepPair s g bs p k (hlen ▸ hp1) (hlen ▸ hp2) hne
    have hkin2 : ∀ m, kin (getB (stepPair s g bs p) m) = kin (getB bs0 m) :=
      fun m => (kin_stepPair s g bs p m).trans (hkin m)
    have hrec := ih (stepPair s g bs p) ((length_stepPair s g bs p).trans hlen) hkin2
      (fun q hq => hps q (List.mem_cons_of_mem p hq)) k
    have hcongr := contrib_congr s g hkin k p
    constructor
    · rw [List.foldl_cons, hrec.1, hstep.1, hcongr.1, List.map_cons, List.sum_cons]
      ring
    · rw [List.foldl_cons, hrec.2, hstep.2, hcongr.2, List.map_cons, List.sum_cons]
      ring

theorem mem_pairsList {n : ℕ} {p : ℕ × ℕ} (hp : p ∈ pairsList n) : p.1 < p.2 ∧ p.2 < n := by
  unfold pairsList at hp
  simp only [List.mem_flatMap, List.mem_map, List.mem_range, List.mem_range'_1] at hp
  obtain ⟨i, hi, j, hj, rfl⟩ := hp
  omega

theorem kin_foldl (s : ℚ → ℚ) (g : ℚ) (ps : List (ℕ × ℕ)) :
    ∀ (bs : List Body) (k : ℕ),
      kin (getB (ps.foldl (stepPair s g) bs) k) = kin (getB bs k) := by
  induction ps with
  | nil => intro bs k; rfl
  | cons p ps ih =>
    intro bs k
    rw [List.foldl_cons, ih (stepPair s g bs p) k, kin_stepPair]

theorem getB_map_resetAccel (bs : List Body) (k : ℕ) :
    getB (bs.map resetAccel) k = resetAccel (getB bs k) := by
  have h := getD_map bs resetAccel k default
  rw [show resetAccel (default : Body) = default from rfl] at h
  exact h

/-- C1: compute_forces resets accelerations on entry (so the result is
independent of the accelerations handed in, witnessed by equality with the
run on the acceleration-cleared array), and every body k ends with
acceleration equal to the sum, over the pairs (i, j) with i < j taken in
ascending i then ascending j order, of the contribution (g/d2)(dx/d, dy/d)
scaled by mass_j for body i and its negation scaled by mass_i for body j,
with d2 = dx*dx + dy*dy + SOFTENING*SOFTENING, SOFTENING = 0.1 > 0 and
d = sqrt d2; positions, velocities and masses are untouched. -/
theorem compute_forces_pair_sum (s : ℚ → ℚ) (g : ℚ) (bs : List Body) (k : ℕ)
    (hk : k < bs.length) :
    (getB (compute_forces s g bs) k).ax
        = ((pairsList bs.length).map (contribAx s g bs k)).sum ∧
    (getB (compute_forces s g bs) k).ay
        = ((pairsList bs.length).map (contribAy s g bs k)).sum ∧
    (getB (compute_forces s g bs) k).x = (getB bs k).x ∧
    (getB (compute_forces s g bs) k).y = (getB bs k).y ∧
    (getB (compute_forces s g bs) k).vx = (getB bs k).vx ∧
    (getB (compute_forces s g bs) k).vy = (getB bs k).vy ∧
    (getB (compute_forces s g bs) k).mass = (getB bs k).mass ∧
    compute_forces s g bs = compute_forces s g (bs.map resetAccel) ∧
    SOFTENING = 1/10 ∧ 0 < SOFTENING := by
  have hkin0 : ∀ m, kin (getB (bs.map resetAccel) m) = kin (getB bs m) := by
    intro m; rw [getB_map_resetAccel]; rfl
  have hps : ∀ p ∈ pairsList bs.length,
      p.1 < bs.length ∧ p.2 < bs.length ∧ p.1 ≠ p.2 := by
    intro p hp
    obtain ⟨h1, h2⟩ := mem_pairsList hp
    exact ⟨Nat.lt_trans h1 h2, h2, Nat.ne_of_lt h1⟩
  have hacc := accel_foldl s g (pairsList bs.length) bs (bs.map resetAccel)
    (by rw [List.length_map]) hkin0 hps k
  have hreset_ax : (getB (bs.map resetAccel) k).ax = 0 := by
    rw [getB_map_resetAccel]; rfl
  have hreset_ay : (getB (bs.map resetAccel) k).ay = 0 := by
    rw [getB_map_resetAccel]; rfl
  have hkinres : kin (getB (compute_forces s g bs) k) = kin (getB bs k) := by
    unfold compute_forces
    rw [kin_foldl]
    exact hkin0 k
  have hfields := kin_fields hkinres
  refine ⟨?_, ?_, hfields.1, hfields.2.1, hfields.2.2.1, hfields.2.2.2.1, hfields.2.2.2.2, ?_, rfl, by norm_num [SOFTENING]⟩
  · have := hacc.1
    unfold compute_forces
    rw [this, hreset_ax, zero_add]
  · have := hacc.2
    unfold compute_forces
    rw [this, hreset_ay, zero_add]
  · unfold compute_forces
    rw [List.length_map, List.map_map,
      show resetAccel ∘ resetAccel = resetAccel from funext (fun b => rfl)]

/-- Closed instance of the C1 theorem at a concrete two-body state. -/
theorem compute_forces_pair_sum_witness :
    (0 : ℕ) < ([⟨0, 0, 0, 0, 7, 8, 10⟩, ⟨2, 0, 0, 0, 9, 3, 5⟩] : List Body).length ∧
    (getB (compute_forces (fun _ => 2) 1 [⟨0, 0, 0, 0, 7, 8, 10⟩, ⟨2, 0, 0, 0, 9, 3, 5⟩]) 0).ax
      = ((pairsList 2).map
          (contribAx (fun _ => 2) 1 [⟨0, 0, 0, 0, 7, 8, 10⟩, ⟨2, 0, 0, 0, 9, 3, 5⟩] 0)).sum := by
  refine ⟨by decide, ?_⟩
  exact (compute_forces_pair_sum (fun _ => 2) 1
    [⟨0, 0, 0, 0, 7, 8, 10⟩, ⟨2, 0, 0, 0, 9, 3, 5⟩] 0 (by decide)).1

/-- The loop body of update_bodies (physics.c lines 92-100): velocity first,
then position from the just-updated velocity. -/
def integrateBody (dt : ℚ) (b : Body) : Body :=
  let vx := b.vx + b.ax * dt
  let vy := b.vy + b.ay * dt
  { b with vx := vx, vy := vy, x := b.x + vx * dt, y := b.y + vy * dt }

/-- update_bodies from physics.c lines 87-101: compute_forces, then the
per-body integration loop (each iteration touches only body i). -/
def update_bodies (s : ℚ → ℚ) (g dt : ℚ) (bs : List Body) : List Body :=
  (compute_forces s g bs).map (integrateBody dt)

theorem getB_map_integrateBody (dt : ℚ) (bs : List Body) (k : ℕ) :
    getB (bs.map (integrateBody dt)) k = integrateBody dt (getB bs k) := by
  have h := getD_map bs (integrateBody dt) k default
  rw [show integrateBody dt (default : Body) = default by
    show integrateBody dt ⟨0, 0, 0, 0, 0, 0, 0⟩ = ⟨0, 0, 0, 0, 0, 0, 0⟩
    simp [integrateBody]] at h
  exact h

/-- C2: update_bodies first runs compute_forces, then for every body the
velocity becomes v + a*dt and the position becomes x + (v + a*dt)*dt, i.e.
the position update uses the just-updated velocity (semi-implicit Euler);
the deviation from the plain-Euler position x + v*dt is exactly a*dt*dt. -/
theorem update_bodies_symplectic (s : ℚ → ℚ) (g dt : ℚ) (bs : List Body) (k : ℕ)
    (hk : k < bs.length) :
    (getB (update_bodies s g dt bs) k).vx
        = (getB (compute_forces s g bs) k).vx + (getB (compute_forces s g bs) k).ax * dt ∧
    (getB (update_bodies s g dt bs) k).vy
        = (getB (compute_forces s g bs) k).vy + (getB (compute_forces s g bs) k).ay * dt ∧
    (getB (update_bodies s g dt bs) k).x
        = (getB (compute_forces s g bs) k).x
          + ((getB (compute_forces s g bs) k).vx + (getB (compute_forces s g bs) k).ax * dt) * dt ∧
    (getB (update_bodies s g dt bs) k).y
        = (getB (compute_forces s g bs) k).y
          + ((getB (compute_forces s g bs) k).vy + (getB (compute_forces s g bs) k).ay * dt) * dt ∧
    (getB (update_bodies s g dt bs) k).x
        - ((getB (compute_forces s g bs) k).x + (getB (compute_forces s g bs) k).vx * dt)
        = (getB (compute_forces s g bs) k).ax * dt * dt ∧
    (getB (update_bodies s g dt bs) k).ax = (getB (compute_forces s g bs) k).ax ∧
    (getB (update_bodies s g dt bs) k).ay = (getB (compute_forces s g bs) k).ay := by
  unfold update_bodies
  rw [getB_map_integrateBody]
  unfold integrateBody
  refine ⟨rfl, rfl, rfl, rfl, by ring, rfl, rfl⟩

/-- Closed instance of the C2 theorem at a concrete two-body state. -/
theorem update_bodies_symplectic_witness :
    (0 : ℕ) < ([⟨0, 0, 1, 0, 0, 0, 10⟩, ⟨2, 0, 0, 3, 0, 0, 5⟩] : List Body).length ∧
    (getB (update_bodies (fun _ => 2) 1 (1/2) [⟨0, 0, 1, 0, 0, 0, 10⟩, ⟨2, 0, 0, 3, 0, 0, 5⟩]) 0).x
      = (getB (compute_forces (fun _ => 2) 1 [⟨0, 0, 1, 0, 0, 0, 10⟩, ⟨2, 0, 0, 3, 0, 0, 5⟩]) 0).x
        + ((getB (compute_forces (fun _ => 2) 1 [⟨0, 0, 1, 0, 0, 0, 10⟩, ⟨2, 0, 0, 3, 0, 0, 5⟩]) 0).vx
           + (getB (compute_forces (fun _ => 2) 1 [⟨0, 0, 1, 0, 0, 0, 10⟩, ⟨2, 0, 0, 3, 0, 0, 5⟩]) 0).ax * (1/2)) * (1/2) := by
  refine ⟨by decide, ?_⟩
  exact (update_bodies_symplectic (fun _ => 2) 1 (1/2)
    [⟨0, 0, 1, 0, 0, 0, 10⟩, ⟨2, 0, 0, 3, 0, 0, 5⟩] 0 (by decide)).2.2.1

/-- Rocket from include/nbody.h: a massless test particle with an owned
trail.  The C trail buffers (malloc of trail_capacity doubles, separate
length counter) are modeled as lists whose length is the allocated capacity;
uninitialized slots are modeled as 0 and sit above trailLen. -/
structure Rocket where
  x : ℚ
  y : ℚ
  vx : ℚ
  vy : ℚ
  ax : ℚ
  ay : ℚ
  active : Bool
  trailX : List ℚ
  trailY : List ℚ
  trailLen : ℕ
  trailCap : ℕ
deriving DecidableEq, Repr

instance : Inhabited Rocket := ⟨⟨0, 0, 0, 0, 0, 0, false, [], [], 0, 0⟩⟩

/-- Read a rocket from the array, as the C code indexes rockets[k]. -/
def getR (rs : List Rocket) (k : ℕ) : Rocket := rs.getD k default

/-- The inner loop body of compute_rocket_forces (physics.c lines 62-74):
accumulate the softened gravitational acceleration g * mass / d2 towards
one body onto the rocket. -/
def rocketAccum (s : ℚ → ℚ) (g : ℚ) (r : Rocket) (b : Body) : Rocket :=
  let dx := b.x - r.x
  let dy := b.y - r.y
  let dist_sq := dx * dx + dy * dy + SOFTENING * SOFTENING
  let dist := s dist_sq
  let acc := g * b.mass / dist_sq
  { r with ax := r.ax + acc * dx / dist, ay := r.ay + acc * dy / dist }

/-- The per-rocket body of compute_rocket_forces (physics.c lines 54-75):
inactive rockets are skipped unchanged; an active rocket has its
acceleration reset to zero and then accumulates the acceleration from each
body in array order. -/
def rocketForce (s : ℚ → ℚ) (g : ℚ) (bodies : List Body) (r : Rocket) : Rocket :=
  if r.active = false then r
  else bodies.foldl (rocketAccum s g) { r with ax := 0, ay := 0 }

/-- compute_rocket_forces from physics.c lines 52-76 (a loop whose body
touches only rockets[i], hence a map). -/
def compute_rocket_forces (s : ℚ → ℚ) (g : ℚ) (rockets : List Rocket)
    (bodies : List Body) : List Rocket :=
  rockets.map (rocketForce s g bodies)

/-- The kinematic phase of the update_rockets loop body (physics.c lines
116-122): velocity first, then position from the just-updated velocity. -/
def integratePos (dt : ℚ) (r : Rocket) : Rocket :=
  let vx := r.vx + r.ax * dt
  let vy := r.vy + r.ay * dt
  { r with vx := vx, vy := vy, x := r.x + vx * dt, y := r.y + vy * dt }

/-- The trail-recording phase (physics.c lines 124-129): store the current
position at slot trail_length when trail_length < trail_capacity, else
drop the sample silently. -/
def appendTrail (r : Rocket) : Rocket :=
  if r.trailLen < r.trailCap then
    { r with trailX := r.trailX.set r.trailLen r.x,
             trailY := r.trailY.set r.trailLen r.y,
             trailLen := r.trailLen + 1 }
  else r

/-- The deactivation phase (physics.c lines 131-137): if the square-root
routine reports a radial distance above 50, clear the active flag. -/
def deactivate (s : ℚ → ℚ) (r : Rocket) : Rocket :=
  if s (r.x * r.x + r.y * r.y) > 50 then { r with active := false } else r

/-- The per-rocket integration body of update_rockets (physics.c lines
113-137): skip inactive rockets; otherwise integrate, record the trail
sample, then evaluate the deactivation rule. -/
def integrateRocket (s : ℚ → ℚ) (dt : ℚ) (r : Rocket) : Rocket :=
  if r.active = false then r
  else deactivate s (appendTrail (integratePos dt r))

/-- update_rockets from physics.c lines 107-139: compute_rocket_forces,
then the per-rocket integration loop. -/
def update_rockets (s : ℚ → ℚ) (g dt : ℚ) (bodies : List Body)
    (rockets : List Rocket) : List Rocket :=
  (compute_rocket_forces s g rockets bodies).map (integrateRocket s dt)

theorem rocketForce_inactive (s : ℚ → ℚ) (g : ℚ) (bodies : List Body) (r : Rocket)
    (h : r.active = false) : rocketForce s g bodies r = r := by
  unfold rocketForce; rw [if_pos h]

/-- Everything the deactivation phase leaves alone: all fields but the
active flag. -/
theorem deactivate_proj (s : ℚ → ℚ) (r : Rocket) :
    (deactivate s r).x = r.x ∧ (deactivate s r).y = r.y ∧
    (deactivate s r).vx = r.vx ∧ (deactivate s r).vy = r.vy ∧
    (deactivate s r).trailX = r.trailX ∧ (deactivate s r).trailY = r.trailY ∧
    (deactivate s r).trailLen = r.trailLen ∧ (deactivate s r).trailCap = r.trailCap := by
  unfold deactivate
  split <;> exact ⟨rfl, rfl, rfl, rfl, rfl, rfl, rfl, rfl⟩

/-- The non-acceleration content of a rocket. -/
def rocketNonAccel (r : Rocket) :
    ℚ × ℚ × ℚ × ℚ × Bool × List ℚ × List ℚ × ℕ × ℕ :=
  (r.x, r.y, r.vx, r.vy, r.active, r.trailX, r.trailY, r.trailLen, r.trailCap)

theorem rocketForce_nonAccel (s : ℚ → ℚ) (g : ℚ) (bodies : List Body) (r : Rocket) :
    rocketNonAccel (rocketForce s g bodies r) = rocketNonAccel r := by
  unfold rocketForce
  split
  · rfl
  · have hfold : ∀ (bl : List Body) (r0 : Rocket),
        rocketNonAccel (bl.foldl (rocketAccum s g) r0) = rocketNonAccel r0 := by
      intro bl
      induction bl with
      | nil => intro r0; rfl
      | cons b bl ih => intro r0; rw [List.foldl_cons, ih]; rfl
    rw [hfold]; rfl

theorem integrateRocket_inactive (s : ℚ → ℚ) (dt : ℚ) (r : Rocket)
    (h : r.active = false) : integrateRocket s dt r = r := by
  unfold integrateRocket; rw [if_pos h]

theorem getR_map (f : Rocket → Rocket) (hf : f default = default) (rs : List Rocket) (k : ℕ) :
    getR (rs.map f) k = f (getR rs k) := by
  have h := getD_map rs f k default
  rw [hf] at h
  exact h

theorem default_inactive : (default : Rocket).active = false := rfl

theorem getR_update_rockets (s : ℚ → ℚ) (g dt : ℚ) (bodies : List Body)
    (rockets : List Rocket) (k : ℕ) :
    getR (update_rockets s g dt bodies rockets) k
      = integrateRocket s dt (rocketForce s g bodies (getR rockets k)) := by
  unfold update_rockets compute_rocket_forces
  rw [getR_map _ (integrateRocket_inactive s dt default rfl),
    getR_map _ (rocketForce_inactive s g bodies default rfl)]

/-- C8: a rocket whose active flag is false is returned bit-for-bit
unchanged by compute_rocket_forces and by update_rockets: no acceleration
reset or accumulation, no velocity or position update, no trail append, no
trail length change. -/
theorem inactive_rocket_unmodified (s : ℚ → ℚ) (g dt : ℚ) (bodies : List Body)
    (rockets : List Rocket) (k : ℕ) (h : (getR rockets k).active = false) :
    getR (compute_rocket_forces s g rockets bodies) k = getR rockets k ∧
    getR (update_rockets s g dt bodies rockets) k = getR rockets k := by
  constructor
  · unfold compute_rocket_forces
    rw [getR_map _ (rocketForce_inactive s g bodies default rfl),
      rocketForce_inactive s g bodies _ h]
  · rw [getR_update_rockets, rocketForce_inactive s g bodies _ h,
      integrateRocket_inactive s dt _ h]

/-- Closed instance of the C8 theorem at a concrete inactive rocket. -/
theorem inactive_rocket_unmodified_witness :
    (getR [⟨3, 4, 5, 6, 7, 8, false, [3], [4], 1, 1⟩] 0).active = false ∧
    getR (update_rockets (fun _ => 1) 1 (1/4) [⟨0, 0, 0, 0, 0, 0, 100⟩]
        [⟨3, 4, 5, 6, 7, 8, false, [3], [4], 1, 1⟩]) 0
      = getR [⟨3, 4, 5, 6, 7, 8, false, [3], [4], 1, 1⟩] 0 := by
  refine ⟨by decide, ?_⟩
  exact (inactive_rocket_unmodified (fun _ => 1) 1 (1/4) [⟨0, 0, 0, 0, 0, 0, 100⟩]
    [⟨3, 4, 5, 6, 7, 8, false, [3], [4], 1, 1⟩] 0 (by decide)).2

/-- The world state carried through the main loop of main.c: the bodies
array and the rockets array; render reads them but writes only the pixel
buffer, so it leaves the world unchanged. -/
structure World where
  bodies : List Body
  rockets : List Rocket
deriving DecidableEq, Repr

/-- The core operations a run can interleave (main.c simulation loop). -/
inductive Op where
  | updBodies (dt g : ℚ)
  | updRockets (dt g : ℚ)
  | render (scale : ℚ)
deriving DecidableEq, Repr

/-- Effect of one core operation on the world state. -/
def applyOp (s : ℚ → ℚ) (w : World) : Op → World
  | Op.updBodies dt g => { w with bodies := update_bodies s g dt w.bodies }
  | Op.updRockets dt g => { w with rockets := update_rockets s g dt w.bodies w.rockets }
  | Op.render _ => w

/-- Effect of a sequence of core operations. -/
def applyOps (s : ℚ → ℚ) (w : World) (ops : List Op) : World :=
  ops.foldl (applyOp s) w

theorem inactive_applyOp (s : ℚ → ℚ) (w : World) (op : Op) (k : ℕ)
    (h : (getR w.rockets k).active = false) :
    (getR (applyOp s w op).rockets k).active = false := by
  cases op with
  | updBodies dt g => exact h
  | updRockets dt g =>
    show (getR (update_rockets s g dt w.bodies w.rockets) k).active = false
    rw [(inactive_rocket_unmodified s g dt w.bodies w.rockets k h).2]
    exact h
  | render scale => exact h

/-- C5: deactivation.  First part: after update_rockets, any rocket whose
final radial distance sqrt(x*x + y*y) exceeds 50 (the square root being
computed exactly: c*c equals the radicand, c nonnegative, and the runtime
square-root routine s returned c there) has its active flag false.  Second
part: deactivation is terminal: under any sequence of core operations
(update_bodies, update_rockets, render), a rocket whose active flag is
false never becomes active again. -/
theorem rocket_deactivation_terminal (s : ℚ → ℚ) (g dt : ℚ) (bodies : List Body)
    (rockets : List Rocket) (k : ℕ) (c : ℚ) :
    ((0:ℚ) ≤ c →
      c * c = (getR (update_rockets s g dt bodies rockets) k).x
                * (getR (update_rockets s g dt bodies rockets) k).x
              + (getR (update_rockets s g dt bodies rockets) k).y
                * (getR (update_rockets s g dt bodies rockets) k).y →
      s ((getR (update_rockets s g dt bodies rockets) k).x
            * (getR (update_rockets s g dt bodies rockets) k).x
          + (getR (update_rockets s g dt bodies rockets) k).y
            * (getR (update_rockets s g dt bodies rockets) k).y) = c →
      50 < c →
      (getR (update_rockets s g dt bodies rockets) k).active = false) ∧
    ∀ (w : World) (ops : List Op) (j : ℕ),
      (getR w.rockets j).active = false →
      (getR (applyOps s w ops).rockets j).active = false := by
  constructor
  · intro _ _ hs hgt
    by_cases hact : (rocketForce s g bodies (getR rockets k)).active = false
    · rw [getR_update_rockets, integrateRocket_inactive s dt _ hact]
      exact hact
    · rw [getR_update_rockets] at hs ⊢
      unfold integrateRocket at hs ⊢
      rw [if_neg hact] at hs ⊢
      rw [(deactivate_proj s (appendTrail (integratePos dt (rocketForce s g bodies (getR rockets k))))).1,
        (deactivate_proj s (appendTrail (integratePos dt (rocketForce s g bodies (getR rockets k))))).2.1] at hs
      unfold deactivate
      rw [if_pos (by rw [hs]; exact hgt)]
  · intro w ops
    induction ops generalizing w with
    | nil => intro j h; exact h
    | cons op ops ih =>
      intro j h
      exact ih (applyOp s w op) j (inactive_applyOp s w op j h)

/-- Closed instance of the C5 theorem: a rocket shot to distance 60 in one
step is deactivated, and an inactive rocket stays inactive over a sequence
of all three operations. -/
theorem rocket_deactivation_terminal_witness :
    (getR (update_rockets (fun q => if q = 3600 then 60 else 0) 1 1 []
        [⟨0, 0, 60, 0, 9, 9, true, [0, 0], [0, 0], 1, 2⟩]) 0).active = false ∧
    (getR (applyOps (fun q => if q = 3600 then 60 else 0)
        ⟨[⟨0, 0, 0, 0, 0, 0, 100⟩], [⟨3, 4, 5, 6, 7, 8, false, [3], [4], 1, 1⟩]⟩
        [Op.updBodies (1/100) 1, Op.updRockets (1/100) 1, Op.render 50]).rockets 0).active
      = false := by
  have h := rocket_deactivation_terminal (fun q => if q = 3600 then 60 else 0) 1 1 []
    [⟨0, 0, 60, 0, 9, 9, true, [0, 0], [0, 0], 1, 2⟩] 0 60
  have hx : getR (update_rockets (fun q => if q = 3600 then 60 else 0) 1 1 []
      [⟨0, 0, 60, 0, 9, 9, true, [0, 0], [0, 0], 1, 2⟩]) 0
      = ⟨60, 0, 60, 0, 0, 0, false, [0, 60], [0, 0], 2, 2⟩ := by
    rw [getR_update_rockets]
    norm_num [rocketForce, rocketAccum, integrateRocket, integratePos, appendTrail,
      deactivate, getR, List.getD, List.set_cons_zero, List.set_cons_succ]
  constructor
  · apply h.1 (by norm_num) (by rw [hx]; norm_num) (by rw [hx]; norm_num) (by norm_num)
  · apply h.2 ⟨[⟨0, 0, 0, 0, 0, 0, 100⟩], [⟨3, 4, 5, 6, 7, 8, false, [3], [4], 1, 1⟩]⟩
      [Op.updBodies (1/100) 1, Op.updRockets (1/100) 1, Op.render 50] 0 (by decide)

theorem rocketNonAccel_fields {r r2 : Rocket} (h : rocketNonAccel r = rocketNonAccel r2) :
    r.x = r2.x ∧ r.y = r2.y ∧ r.vx = r2.vx ∧ r.vy = r2.vy ∧ r.active = r2.active ∧
    r.trailX = r2.trailX ∧ r.trailY = r2.trailY ∧ r.trailLen = r2.trailLen ∧
    r.trailCap = r2.trailCap := by
  simp only [rocketNonAccel, Prod.mk.injEq] at h
  exact h

/-- C6: trail recording in update_rockets, for an active rocket under the
allocation invariant (the trail buffers have trail_capacity slots).  If
trail_length < trail_capacity the new position is stored at index
trail_length, trail_length grows by one and all other slots are untouched;
otherwise the sample is dropped: buffers and length are exactly unchanged.
In both cases the capacity is unchanged and trail_length ≤ trail_capacity
is preserved. -/
theorem update_rockets_trail (s : ℚ → ℚ) (g dt : ℚ) (bodies : List Body)
    (rockets : List Rocket) (k : ℕ) (r r' : Rocket)
    (hr : r = getR rockets k)
    (hr' : r' = getR (update_rockets s g dt bodies rockets) k)
    (hact : r.active = true)
    (hxlen : r.trailX.length = r.trailCap)
    (hylen : r.trailY.length = r.trailCap) :
    (r.trailLen < r.trailCap →
      r'.trailLen = r.trailLen + 1 ∧
      r'.trailX.getD r.trailLen 0 = r'.x ∧
      r'.trailY.getD r.trailLen 0 = r'.y ∧
      (∀ t, t ≠ r.trailLen →
        r'.trailX.getD t 0 = r.trailX.getD t 0 ∧
        r'.trailY.getD t 0 = r.trailY.getD t 0)) ∧
    (¬ r.trailLen < r.trailCap →
      r'.trailX = r.trailX ∧ r'.trailY = r.trailY ∧ r'.trailLen = r.trailLen) ∧
    r'.trailCap = r.trailCap ∧
    (r.trailLen ≤ r.trailCap → r'.trailLen ≤ r.trailCap) := by
  set F := rocketForce s g bodies (getR rockets k) with hFdef
  set I := integratePos dt F with hIdef
  have hF := rocketNonAccel_fields (rocketForce_nonAccel s g bodies (getR rockets k))
  have hFact : ¬ F.active = false := by
    rw [hFdef, hF.2.2.2.2.1, ← hr, hact]; simp
  have hr'2 : r' = deactivate s (appendTrail I) := by
    rw [hr', getR_update_rockets]
    unfold integrateRocket
    rw [if_neg hFact]
  have hP := deactivate_proj s (appendTrail I)
  have hIX : I.trailX = r.trailX := by
    rw [hIdef, hr]
    show F.trailX = (getR rockets k).trailX
    exact hF.2.2.2.2.2.1
  have hIY : I.trailY = r.trailY := by
    rw [hIdef, hr]
    show F.trailY = (getR rockets k).trailY
    exact hF.2.2.2.2.2.2.1
  have hIL : I.trailLen = r.trailLen := by
    rw [hIdef, hr]
    show F.trailLen = (getR rockets k).trailLen
    exact hF.2.2.2.2.2.2.2.1
  have hIC : I.trailCap = r.trailCap := by
    rw [hIdef, hr]
    show F.trailCap = (getR rockets k).trailCap
    exact hF.2.2.2.2.2.2.2.2
  by_cases hlen : r.trailLen < r.trailCap
  · have happ : appendTrail I
        = ⟨I.x, I.y, I.vx, I.vy, I.ax, I.ay, I.active,
           r.trailX.set r.trailLen I.x, r.trailY.set r.trailLen I.y,
           r.trailLen + 1, r.trailCap⟩ := by
      unfold appendTrail
      rw [hIX, hIY, hIL, hIC, if_pos hlen]
    refine ⟨fun _ => ⟨?_, ?_, ?_, ?_⟩, fun h => absurd hlen h, ?_, fun _ => ?_⟩
    · rw [hr'2, hP.2.2.2.2.2.2.1, happ]
    · rw [hr'2, hP.2.2.2.2.1, hP.1, happ]
      exact getD_set_self _ _ _ _ (by rw [hxlen]; exact hlen)
    · rw [hr'2, hP.2.2.2.2.2.1, hP.2.1, happ]
      exact getD_set_self _ _ _ _ (by rw [hylen]; exact hlen)
    · intro t ht
      constructor
      · rw [hr'2, hP.2.2.2.2.1, happ]
        exact getD_set_ne _ _ _ _ _ (fun h => ht h.symm)
      · rw [hr'2, hP.2.2.2.2.2.1, happ]
        exact getD_set_ne _ _ _ _ _ (fun h => ht h.symm)
    · rw [hr'2, hP.2.2.2.2.2.2.2, happ]
    · rw [hr'2, hP.2.2.2.2.2.2.1, happ]
      show r.trailLen + 1 ≤ r.trailCap
      omega
  · have happ : appendTrail I = I := by
      unfold appendTrail
      rw [hIL, hIC, if_neg hlen]
    refine ⟨fun h => absurd h hlen, fun _ => ⟨?_, ?_, ?_⟩, ?_, fun h => ?_⟩
    · rw [hr'2, hP.2.2.2.2.1, happ, hIX]
    · rw [hr'2, hP.2.2.2.2.2.1, happ, hIY]
    · rw [hr'2, hP.2.2.2.2.2.2.1, happ, hIL]
    · rw [hr'2, hP.2.2.2.2.2.2.2, happ, hIC]
    · rw [hr'2, hP.2.2.2.2.2.2.1, happ, hIL]
      exact h

/-- Closed instance of the C6 theorem: an active rocket with a one-slot
free trail records one sample; with a full trail nothing changes. -/
theorem update_rockets_trail_witness :
    ((⟨1, 2, 0, 0, 0, 0, true, [1, 0], [2, 0], 1, 2⟩ : Rocket).trailLen
        < (⟨1, 2, 0, 0, 0, 0, true, [1, 0], [2, 0], 1, 2⟩ : Rocket).trailCap) ∧
    (getR (update_rockets (fun _ => 1) 1 1 []
        [⟨1, 2, 0, 0, 0, 0, true, [1, 0], [2, 0], 1, 2⟩]) 0).trailLen
      = (⟨1, 2, 0, 0, 0, 0, true, [1, 0], [2, 0], 1, 2⟩ : Rocket).trailLen + 1 := by
  have h := update_rockets_trail (fun _ => 1) 1 1 []
    [⟨1, 2, 0, 0, 0, 0, true, [1, 0], [2, 0], 1, 2⟩] 0
    ⟨1, 2, 0, 0, 0, 0, true, [1, 0], [2, 0], 1, 2⟩
    (getR (update_rockets (fun _ => 1) 1 1 []
        [⟨1, 2, 0, 0, 0, 0, true, [1, 0], [2, 0], 1, 2⟩]) 0)
    (by decide) rfl (by decide) (by decide) (by decide)
  exact ⟨by decide, (h.1 (by decide)).1⟩

/-- The rocket constructed per input line by load_rockets (file_io.c lines
66-82): zero acceleration, active, trail buffers of STEPS slots (malloc;
uninitialized slots modeled as 0), initial position stored at slot 0,
trail_length 1, trail_capacity STEPS. -/
def loadRocketLine (x y vx vy : ℚ) : Rocket :=
  { x := x, y := y, vx := vx, vy := vy, ax := 0, ay := 0, active := true,
    trailX := (List.replicate STEPS 0).set 0 x,
    trailY := (List.replicate STEPS 0).set 0 y,
    trailLen := 1, trailCap := STEPS }

/-- The rocket constructed by init_rockets_default (init.c lines 48-88):
perihelion start of an ellipse with semi-major axis 5 and eccentricity 0.6
around central mass 100, perihelion speed via the square-root routine;
trail allocation identical to load_rockets. -/
def init_rockets_default (s : ℚ → ℚ) : Rocket :=
  let semi_major : ℚ := 5
  let eccentricity : ℚ := 3/5
  let r := semi_major * (1 - eccentricity)
  let M_central : ℚ := 100
  let v_perihelion := s (1 * M_central * (1 + eccentricity) / (semi_major * (1 - eccentricity)))
  { x := r, y := 0, vx := 0, vy := v_perihelion, ax := 0, ay := 0, active := true,
    trailX := (List.replicate STEPS 0).set 0 r,
    trailY := (List.replicate STEPS 0).set 0 0,
    trailLen := 1, trailCap := STEPS }

/-- One iteration of the main simulation loop (main.c lines 84-113 without
the periodic render, which does not change the world): update_bodies then
update_rockets. -/
def stepWorld (s : ℚ → ℚ) (dt g : ℚ) (w : World) : World :=
  applyOp s (applyOp s w (Op.updBodies dt g)) (Op.updRockets dt g)

/-- n iterations of the main simulation loop. -/
def iterWorld (s : ℚ → ℚ) (dt g : ℚ) (w : World) : ℕ → World
  | 0 => w
  | n+1 => iterWorld s dt g (stepWorld s dt g w) n

theorem trailLen_step (s : ℚ → ℚ) (g dt : ℚ) (bodies : List Body)
    (rockets : List Rocket) (k : ℕ) :
    (getR (update_rockets s g dt bodies rockets) k).trailCap = (getR rockets k).trailCap ∧
    ((getR rockets k).active = true →
      (getR (update_rockets s g dt bodies rockets) k).trailLen
        = if (getR rockets k).trailLen < (getR rockets k).trailCap
          then (getR rockets k).trailLen + 1
          else (getR rockets k).trailLen) := by
  have hF := rocketNonAccel_fields (rocketForce_nonAccel s g bodies (getR rockets k))
  rw [getR_update_rockets]
  by_cases hact : (rocketForce s g bodies (getR rockets k)).active = false
  · rw [integrateRocket_inactive s dt _ hact]
    refine ⟨hF.2.2.2.2.2.2.2.2, fun ha => ?_⟩
    have hcontra : (true : Bool) = false := by
      rw [← ha, ← hF.2.2.2.2.1]; exact hact
    simp at hcontra
  · unfold integrateRocket
    rw [if_neg hact]
    have hP := deactivate_proj s (appendTrail (integratePos dt (rocketForce s g bodies (getR rockets k))))
    have hcapA : (appendTrail (integratePos dt (rocketForce s g bodies (getR rockets k)))).trailCap
        = (integratePos dt (rocketForce s g bodies (getR rockets k))).trailCap := by
      unfold appendTrail; split <;> rfl
    have hIL : (integratePos dt (rocketForce s g bodies (getR rockets k))).trailLen
        = (getR rockets k).trailLen := hF.2.2.2.2.2.2.2.1
    have hIC : (integratePos dt (rocketForce s g bodies (getR rockets k))).trailCap
        = (getR rockets k).trailCap := hF.2.2.2.2.2.2.2.2
    refine ⟨by rw [hP.2.2.2.2.2.2.2, hcapA, hIC], fun _ => ?_⟩
    rw [hP.2.2.2.2.2.2.1]
    unfold appendTrail
    rw [hIL, hIC]
    split <;> first | rfl | exact hIL

theorem trailLen_iter (s : ℚ → ℚ) (dt g : ℚ) (k : ℕ) :
    ∀ (n : ℕ) (w : World),
    (∀ i, i < n → (getR (iterWorld s dt g w i).rockets k).active = true) →
    (getR w.rockets k).trailLen ≤ (getR w.rockets k).trailCap →
    (getR (iterWorld s dt g w n).rockets k).trailLen
      = min ((getR w.rockets k).trailLen + n) (getR w.rockets k).trailCap ∧
    (getR (iterWorld s dt g w n).rockets k).trailCap = (getR w.rockets k).trailCap := by
  intro n
  induction n with
  | zero =>
    intro w _ hle
    refine ⟨?_, rfl⟩
    show (getR w.rockets k).trailLen
      = min ((getR w.rockets k).trailLen + 0) (getR w.rockets k).trailCap
    omega
  | succ n ih =>
    intro w hact hle
    have hact0 : (getR w.rockets k).active = true := hact 0 (Nat.succ_pos n)
    have hstep := trailLen_step s g dt (update_bodies s g dt w.bodies) w.rockets k
    have hlen1 := hstep.2 hact0
    have hcap1 := hstep.1
    have hW : iterWorld s dt g w (n+1) = iterWorld s dt g (stepWorld s dt g w) n := rfl
    have hR : (stepWorld s dt g w).rockets
        = update_rockets s g dt (update_bodies s g dt w.bodies) w.rockets := rfl
    have hrec := ih (stepWorld s dt g w)
      (fun i hi => hact (i+1) (Nat.succ_lt_succ hi))
      (by rw [hR, hlen1, hcap1]; split <;> omega)
    rw [hW, hrec.1, hrec.2, hR, hlen1, hcap1]
    constructor
    · split <;> omega
    · rfl

/-- C7 counterexample: the claim says the trail capacity at creation is one
sample per intended simulation step plus the initial sample, i.e.
STEPS + 1; the load_rockets constructor allocates exactly STEPS. -/
theorem trail_capacity_not_steps_plus_one :
    ¬ ((loadRocketLine 1 2 3 4).trailCap = STEPS + 1) := by decide

/-- C7 amended: both setup paths (load_rockets and init_rockets_default)
create trails with capacity exactly STEPS (not STEPS + 1), length 1 and
the initial position stored at slot 0; and a rocket that stays active
through n main-loop iterations has trail length min(1 + n, capacity) when
starting from length 1 - so over a full STEPS-step run the last sample is
dropped: the trail records the initial sample and the first STEPS - 1
step samples. -/
theorem trail_capacity_steps (x y vx vy : ℚ) (s : ℚ → ℚ) (dt g : ℚ)
    (w : World) (k n : ℕ) :
    (loadRocketLine x y vx vy).trailCap = STEPS ∧
    (loadRocketLine x y vx vy).trailLen = 1 ∧
    (loadRocketLine x y vx vy).trailX.getD 0 0 = x ∧
    (loadRocketLine x y vx vy).trailY.getD 0 0 = y ∧
    (init_rockets_default s).trailCap = STEPS ∧
    (init_rockets_default s).trailLen = 1 ∧
    (init_rockets_default s).trailX.getD 0 0 = 5 * (1 - 3/5) ∧
    ((∀ i, i < n → (getR (iterWorld s dt g w i).rockets k).active = true) →
      (getR w.rockets k).trailLen ≤ (getR w.rockets k).trailCap →
      (getR (iterWorld s dt g w n).rockets k).trailLen
        = min ((getR w.rockets k).trailLen + n) (getR w.rockets k).trailCap) := by
  refine ⟨rfl, rfl, rfl, rfl, rfl, rfl, rfl, fun hact hle => (trailLen_iter s dt g k n w hact hle).1⟩

/-- Closed instance of the amended C7 theorem: a capacity-2 rocket active
through one step ends at trail length min(1 + 1, 2) = 2. -/
theorem trail_capacity_steps_witness :
    (∀ i, i < 1 →
      (getR (iterWorld (fun _ => 0) 1 1
          ⟨[], [⟨0, 0, 0, 0, 0, 0, true, [0, 0], [0, 0], 1, 2⟩]⟩ i).rockets 0).active = true) ∧
    (getR (⟨[], [⟨0, 0, 0, 0, 0, 0, true, [0, 0], [0, 0], 1, 2⟩]⟩ : World).rockets 0).trailLen
      ≤ (getR (⟨[], [⟨0, 0, 0, 0, 0, 0, true, [0, 0], [0, 0], 1, 2⟩]⟩ : World).rockets 0).trailCap ∧
    (loadRocketLine 1 2 3 4).trailCap = STEPS ∧
    (getR (iterWorld (fun _ => 0) 1 1
        ⟨[], [⟨0, 0, 0, 0, 0, 0, true, [0, 0], [0, 0], 1, 2⟩]⟩ 1).rockets 0).trailLen
      = min ((getR (⟨[], [⟨0, 0, 0, 0, 0, 0, true, [0, 0], [0, 0], 1, 2⟩]⟩ : World).rockets 0).trailLen + 1)
          (getR (⟨[], [⟨0, 0, 0, 0, 0, 0, true, [0, 0], [0, 0], 1, 2⟩]⟩ : World).rockets 0).trailCap := by
  have hact : ∀ i, i < 1 →
      (getR (iterWorld (fun _ => 0) 1 1
          ⟨[], [⟨0, 0, 0, 0, 0, 0, true, [0, 0], [0, 0], 1, 2⟩]⟩ i).rockets 0).active = true := by
    intro i hi
    have h0 : i = 0 := by omega
    subst h0
    decide
  have h := trail_capacity_steps 1 2 3 4 (fun _ => 0) 1 1
    ⟨[], [⟨0, 0, 0, 0, 0, 0, true, [0, 0], [0, 0], 1, 2⟩]⟩ 0 1
  exact ⟨hact, by decide, h.1, h.2.2.2.2.2.2.2 hact (by decide)⟩

/-- A square-root routine that is exact at both radicands arising in the
three-body counterexample configuration (see csqrt_exact). -/
def csqrt : ℚ → ℚ :=
  fun q => if q = 169/2500 then 13/50 else if q = 1/100 then 1/10 else 0

/-- csqrt returns the true nonnegative square root at every radicand the
counterexample evaluates it on. -/
theorem csqrt_exact :
    csqrt (169/2500) * csqrt (169/2500) = 169/2500 ∧ 0 ≤ csqrt (169/2500) ∧
    csqrt (1/100) * csqrt (1/100) = 1/100 ∧ 0 ≤ csqrt (1/100) := by
  norm_num [csqrt]

/-- The counterexample configuration: two unit masses coincident at the
origin and one unit mass at x = 6/25; all softened pair distances are
exact rationals (13/50 for the separated pairs, 1/10 for the coincident
pair). -/
def threeBodies : List Body :=
  [⟨0, 0, 0, 0, 0, 0, 1⟩, ⟨0, 0, 0, 0, 0, 0, 1⟩, ⟨6/25, 0, 0, 0, 0, 0, 1⟩]

/-- C4 counterexample: after one compute_forces call on the three-body
configuration, bodies 0 and 2 violate the claimed magnitude equality:
mass^2 * |accel|^2 is (30000/2197)^2 for body 0 but (60000/2197)^2 for
body 2 (for nonnegative reals, mass * |accel| values are equal exactly
when their squares are, so the claimed equality fails). -/
theorem newton_pairwise_magnitude_false :
    ¬ ((getB (compute_forces csqrt 1 threeBodies) 0).mass ^ 2
          * ((getB (compute_forces csqrt 1 threeBodies) 0).ax ^ 2
             + (getB (compute_forces csqrt 1 threeBodies) 0).ay ^ 2)
        = (getB (compute_forces csqrt 1 threeBodies) 2).mass ^ 2
          * ((getB (compute_forces csqrt 1 threeBodies) 2).ax ^ 2
             + (getB (compute_forces csqrt 1 threeBodies) 2).ay ^ 2)) := by
  have hp : pairsList 3 = [(0, 1), (0, 2), (1, 2)] := by decide
  have hax0 : (getB (compute_forces csqrt 1 threeBodies) 0).ax = 30000/2197 := by
    show (getB ((pairsList 3).foldl (stepPair csqrt 1) _) 0).ax = 30000/2197
    rw [hp]
    norm_num [stepPair, pairForce, getB, resetAccel, threeBodies, SOFTENING,
      List.getD, List.set, csqrt]
  have hay0 : (getB (compute_forces csqrt 1 threeBodies) 0).ay = 0 := by
    show (getB ((pairsList 3).foldl (stepPair csqrt 1) _) 0).ay = 0
    rw [hp]
    norm_num [stepPair, pairForce, getB, resetAccel, threeBodies, SOFTENING,
      List.getD, List.set, csqrt]
  have hax2 : (getB (compute_forces csqrt 1 threeBodies) 2).ax = -(60000/2197) := by
    show (getB ((pairsList 3).foldl (stepPair csqrt 1) _) 2).ax = -(60000/2197)
    rw [hp]
    norm_num [stepPair, pairForce, getB, resetAccel, threeBodies, SOFTENING,
      List.getD, List.set, csqrt]
  have hay2 : (getB (compute_forces csqrt 1 threeBodies) 2).ay = 0 := by
    show (getB ((pairsList 3).foldl (stepPair csqrt 1) _) 2).ay = 0
    rw [hp]
    norm_num [stepPair, pairForce, getB, resetAccel, threeBodies, SOFTENING,
      List.getD, List.set, csqrt]
  have hm0 : (getB (compute_forces csqrt 1 threeBodies) 0).mass = 1 := by
    show (getB ((pairsList 3).foldl (stepPair csqrt 1) _) 0).mass = 1
    rw [hp]
    norm_num [stepPair, pairForce, getB, resetAccel, threeBodies, SOFTENING,
      List.getD, List.set, csqrt]
  have hm2 : (getB (compute_forces csqrt 1 threeBodies) 2).mass = 1 := by
    show (getB ((pairsList 3).foldl (stepPair csqrt 1) _) 2).mass = 1
    rw [hp]
    norm_num [stepPair, pairForce, getB, resetAccel, threeBodies, SOFTENING,
      List.getD, List.set, csqrt]
  rw [hax0, hay0, hax2, hay2, hm0, hm2]
  norm_num

/-- C4 amended: in a two-body system the third law holds exactly after one
compute_forces call, for every square-root routine: the momentum rates
cancel componentwise (mass_0 * accel_0 + mass_1 * accel_1 = 0), the
squared magnitude products mass^2 * |accel|^2 agree, and when the masses
are positive the acceleration vectors are antiparallel: accel_0 is the
negative multiple -(mass_1 / mass_0) of accel_1. -/
theorem newton_third_law_two_body (s : ℚ → ℚ) (g : ℚ) (b0 b1 : Body) :
    (getB (compute_forces s g [b0, b1]) 0).mass * (getB (compute_forces s g [b0, b1]) 0).ax
      + (getB (compute_forces s g [b0, b1]) 1).mass * (getB (compute_forces s g [b0, b1]) 1).ax = 0 ∧
    (getB (compute_forces s g [b0, b1]) 0).mass * (getB (compute_forces s g [b0, b1]) 0).ay
      + (getB (compute_forces s g [b0, b1]) 1).mass * (getB (compute_forces s g [b0, b1]) 1).ay = 0 ∧
    (getB (compute_forces s g [b0, b1]) 0).mass ^ 2
        * ((getB (compute_forces s g [b0, b1]) 0).ax ^ 2
           + (getB (compute_forces s g [b0, b1]) 0).ay ^ 2)
      = (getB (compute_forces s g [b0, b1]) 1).mass ^ 2
        * ((getB (compute_forces s g [b0, b1]) 1).ax ^ 2
           + (getB (compute_forces s g [b0, b1]) 1).ay ^ 2) ∧
    (0 < b0.mass →
      (getB (compute_forces s g [b0, b1]) 0).ax
        = -(b1.mass / b0.mass) * (getB (compute_forces s g [b0, b1]) 1).ax ∧
      (getB (compute_forces s g [b0, b1]) 0).ay
        = -(b1.mass / b0.mass) * (getB (compute_forces s g [b0, b1]) 1).ay) := by
  have hp : pairsList 2 = [(0, 1)] := by decide
  have hCF : compute_forces s g [b0, b1]
      = [{ resetAccel b0 with
            ax := 0 + (pairForce s g (resetAccel b0) (resetAccel b1)).1 * b1.mass,
            ay := 0 + (pairForce s g (resetAccel b0) (resetAccel b1)).2 * b1.mass },
         { resetAccel b1 with
            ax := 0 - (pairForce s g (resetAccel b0) (resetAccel b1)).1 * b0.mass,
            ay := 0 - (pairForce s g (resetAccel b0) (resetAccel b1)).2 * b0.mass }] := by
    show (pairsList 2).foldl (stepPair s g) _ = _
    rw [hp]
    simp [stepPair, getB, resetAccel, List.getD, List.set]
  rw [hCF]
  simp only [getB, List.getD, List.get?_cons_zero, List.get?_cons_succ, Option.getD_some,
    List.getElem?_cons_zero, List.getElem?_cons_succ, resetAccel]
  refine ⟨by ring, by ring, by ring, fun hm => ⟨?_, ?_⟩⟩ <;>
  · field_simp
    ring

/-- Closed instance of the amended C4 theorem at concrete masses 2 and 3. -/
theorem newton_third_law_two_body_witness :
    (0:ℚ) < (⟨0, 0, 0, 0, 0, 0, 2⟩ : Body).mass ∧
    (getB (compute_forces csqrt 1 [⟨0, 0, 0, 0, 0, 0, 2⟩, ⟨6/25, 0, 0, 0, 0, 0, 3⟩]) 0).ax
      = -((⟨6/25, 0, 0, 0, 0, 0, 3⟩ : Body).mass / (⟨0, 0, 0, 0, 0, 0, 2⟩ : Body).mass)
        * (getB (compute_forces csqrt 1 [⟨0, 0, 0, 0, 0, 0, 2⟩, ⟨6/25, 0, 0, 0, 0, 0, 3⟩]) 1).ax := by
  refine ⟨by norm_num, ?_⟩
  exact ((newton_third_law_two_body csqrt 1 ⟨0, 0, 0, 0, 0, 0, 2⟩
    ⟨6/25, 0, 0, 0, 0, 0, 3⟩).2.2.2 (by norm_num)).1

/-- Truncation toward zero: the value of the C cast (int) applied to an
in-range double. -/
def truncQ (q : ℚ) : ℤ := if 0 ≤ q then ⌊q⌋ else ⌈q⌉

/-- The pixel x coordinate computed by render (render.c lines 97, 99, 112,
124): (int)(x * scale + WIDTH / 2); WIDTH / 2 is the exact integer 400. -/
def renderProjX (x scale : ℚ) : ℤ := truncQ (x * scale + (WIDTH : ℚ) / 2)

/-- The pixel y coordinate computed by render (render.c lines 98, 100, 113,
125). -/
def renderProjY (y scale : ℚ) : ℤ := truncQ (y * scale + (HEIGHT : ℚ) / 2)

/-- The pixel x coordinate computed by the plotting tool (plot_trails.c
lines 232, 234, 247, 252). -/
def plotProjX (x scale : ℚ) : ℤ := truncQ (x * scale + (WIDTH : ℚ) / 2)

/-- The pixel y coordinate computed by the plotting tool (plot_trails.c
lines 233, 235, 248, 253). -/
def plotProjY (y scale : ℚ) : ℤ := truncQ (y * scale + (HEIGHT : ℚ) / 2)

/-- The projection the spec words prescribe: round to the nearest
integer. -/
def specProjX (x scale : ℚ) : ℤ := round (x * scale + (WIDTH : ℚ) / 2)

/-- The y component of the projection the spec words prescribe. -/
def specProjY (y scale : ℚ) : ℤ := round (y * scale + (HEIGHT : ℚ) / 2)

/-- C3 counterexample: at world x = -1947/5 and scale 1 the projected
value is x * scale + 400 = 10.6; the code truncates to 10 while the
claimed round-to-nearest gives 11. -/
theorem projection_not_round :
    ¬ (renderProjX (-1947/5) 1 = specProjX (-1947/5) 1) := by
  have h1 : renderProjX (-1947/5) 1 = 10 := by
    have hv : (-1947/5 : ℚ) * 1 + (WIDTH : ℚ) / 2 = 53/5 := by
      norm_num [WIDTH]
    unfold renderProjX truncQ
    rw [hv, if_pos (by norm_num)]
    norm_num [Int.floor_eq_iff]
  have h2 : specProjX (-1947/5) 1 = 11 := by
    have hv : (-1947/5 : ℚ) * 1 + (WIDTH : ℚ) / 2 = 53/5 := by
      norm_num [WIDTH]
    unfold specProjX
    rw [hv, round_eq]
    norm_num [Int.floor_eq_iff]
  rw [h1, h2]
  decide

theorem truncQ_near (v : ℚ) : |v - (truncQ v : ℚ)| < 1 ∧ |(truncQ v : ℚ)| ≤ |v| := by
  unfold truncQ
  by_cases h : 0 ≤ v
  · rw [if_pos h]
    have h1 : ((⌊v⌋ : ℤ) : ℚ) ≤ v := Int.floor_le v
    have h2 : v < ⌊v⌋ + 1 := Int.lt_floor_add_one v
    have h0 : (0 : ℚ) ≤ ((⌊v⌋ : ℤ) : ℚ) := by
      exact_mod_cast Int.floor_nonneg.mpr h
    constructor
    · rw [abs_lt]
      constructor <;> linarith
    · rw [abs_of_nonneg h, abs_of_nonneg h0]
      exact h1
  · rw [if_neg h]
    push_neg at h
    have h1 : v ≤ ((⌈v⌉ : ℤ) : ℚ) := Int.le_ceil v
    have h2 : ((⌈v⌉ : ℤ) : ℚ) < v + 1 := Int.ceil_lt_add_one v
    have h0 : ((⌈v⌉ : ℤ) : ℚ) ≤ 0 := by
      have hz : (⌈v⌉ : ℤ) ≤ 0 := Int.ceil_le.mpr (by exact_mod_cast le_of_lt h)
      exact_mod_cast hz
    constructor
    · rw [abs_lt]
      constructor <;> linarith
    · rw [abs_of_neg h, abs_of_nonpos h0]
      linarith

/-- C3 amended: the Rasterizer and the plotting tool share one projection,
pixel = (int)(world * scale + dimension / 2), which truncates toward zero
rather than rounding: the projected integer is within distance 1 of the
exact value and never exceeds it in absolute value. -/
theorem projection_truncation_contract (x y scale : ℚ) :
    renderProjX x scale = plotProjX x scale ∧
    renderProjY y scale = plotProjY y scale ∧
    |x * scale + (WIDTH : ℚ) / 2 - (renderProjX x scale : ℚ)| < 1 ∧
    |(renderProjX x scale : ℚ)| ≤ |x * scale + (WIDTH : ℚ) / 2| ∧
    |y * scale + (HEIGHT : ℚ) / 2 - (renderProjY y scale : ℚ)| < 1 ∧
    |(renderProjY y scale : ℚ)| ≤ |y * scale + (HEIGHT : ℚ) / 2| := by
  exact ⟨rfl, rfl, (truncQ_near _).1, (truncQ_near _).2,
    (truncQ_near _).1, (truncQ_near _).2⟩

/-- One record of the trajectory binary dump: the C code writes 4-byte ints
and 8-byte doubles with fwrite; the byte encoding of each record is
injective on values, so the stream is modeled at record granularity. -/
inductive Tok where
  | i32 (z : ℤ)
  | f64 (q : ℚ)
deriving DecidableEq, Repr

/-- save_rocket_trails_bin from file_io.c lines 156-173: the rocket count,
then per rocket the trail length followed by the first trail_length x
values and the first trail_length y values. -/
def encodeTrails (rockets : List Rocket) : List Tok :=
  Tok.i32 rockets.length ::
    rockets.flatMap (fun r =>
      Tok.i32 r.trailLen ::
        ((r.trailX.take r.trailLen).map Tok.f64
          ++ (r.trailY.take r.trailLen).map Tok.f64))

/-- fread of one int (plot_trails.c lines 148, 202). -/
def readI32 : List Tok → Option (ℤ × List Tok)
  | Tok.i32 z :: rest => some (z, rest)
  | _ => none

/-- fread of n doubles (plot_trails.c lines 215-216). -/
def readF64s : ℕ → List Tok → Option (List ℚ × List Tok)
  | 0, ts => some ([], ts)
  | n+1, Tok.f64 q :: rest =>
      (readF64s n rest).map (fun p => (q :: p.1, p.2))
  | _+1, _ => none

/-- The per-rocket read loop of plot_trails.c lines 200-221 on the success
path: for each of n rockets read the trail length, then that many x values
and that many y values. -/
def decodeRockets : ℕ → List Tok → Option (List (List ℚ × List ℚ) × List Tok)
  | 0, ts => some ([], ts)
  | n+1, ts => do
      let (len, ts1) ← readI32 ts
      let (xs, ts2) ← readF64s len.toNat ts1
      let (ys, ts3) ← readF64s len.toNat ts2
      let (rs, ts4) ← decodeRockets n ts3
      some ((xs, ys) :: rs, ts4)

/-- The whole reader of plot_trails.c: rocket count then the per-rocket
loop. -/
def decodeTrails (ts : List Tok) : Option (List (List ℚ × List ℚ)) := do
  let (n, ts1) ← readI32 ts
  let (rs, _) ← decodeRockets n.toNat ts1
  some rs

theorem readF64s_append (xs : List ℚ) (rest : List Tok) :
    readF64s xs.length (xs.map Tok.f64 ++ rest) = some (xs, rest) := by
  induction xs with
  | nil => rfl
  | cons q qs ih =>
    show readF64s (qs.length + 1) (Tok.f64 q :: (qs.map Tok.f64 ++ rest)) = _
    unfold readF64s
    rw [ih]
    rfl

theorem readF64s_append_of_len (n : ℕ) (xs : List ℚ) (rest : List Tok)
    (h : n = xs.length) :
    readF64s n (xs.map Tok.f64 ++ rest) = some (xs, rest) := by
  subst h
  exact readF64s_append xs rest

/-- C9: decoding the encoded dump with the plotting tool reader returns
exactly the recorded samples of every rocket (the first trail_length
entries of each buffer), for every rocket list satisfying the allocation
invariant trail_length ≤ buffer length. -/
theorem trails_roundtrip (rockets : List Rocket)
    (hinv : ∀ r ∈ rockets, r.trailLen ≤ r.trailX.length ∧ r.trailLen ≤ r.trailY.length) :
    decodeTrails (encodeTrails rockets)
      = some (rockets.map (fun r => (r.trailX.take r.trailLen, r.trailY.take r.trailLen))) := by
  have hmain : ∀ (rs : List Rocket) (rest : List Tok),
      (∀ r ∈ rs, r.trailLen ≤ r.trailX.length ∧ r.trailLen ≤ r.trailY.length) →
      decodeRockets rs.length
          (rs.flatMap (fun r =>
            Tok.i32 r.trailLen ::
              ((r.trailX.take r.trailLen).map Tok.f64
                ++ (r.trailY.take r.trailLen).map Tok.f64)) ++ rest)
        = some (rs.map (fun r => (r.trailX.take r.trailLen, r.trailY.take r.trailLen)), rest) := by
    intro rs
    induction rs with
    | nil => intro rest _; rfl
    | cons r rs ih =>
      intro rest hr
      have hxlen : (r.trailX.take r.trailLen).length = r.trailLen := by
        rw [List.length_take]
        exact Nat.min_eq_left (hr r (List.mem_cons_self r rs)).1
      have hylen : (r.trailY.take r.trailLen).length = r.trailLen := by
        rw [List.length_take]
        exact Nat.min_eq_left (hr r (List.mem_cons_self r rs)).2
      rw [List.flatMap_cons, List.append_assoc, List.cons_append, List.length_cons]
      unfold decodeRockets
      simp only [readI32, Option.bind_eq_bind, Option.some_bind, Int.toNat_natCast]
      rw [List.append_assoc, readF64s_append_of_len _ _ _ hxlen.symm]
      simp only [Option.some_bind]
      rw [readF64s_append_of_len _ _ _ hylen.symm]
      simp only [Option.some_bind]
      rw [ih rest (fun q hq => hr q (List.mem_cons_of_mem r hq))]
      rfl
  unfold decodeTrails encodeTrails
  simp only [readI32, Option.bind_eq_bind, Option.some_bind, Int.toNat_natCast]
  have h := hmain rockets [] hinv
  rw [List.append_nil] at h
  rw [h]
  rfl

/-- Closed instance of the C9 theorem for two rockets with 2-sample
trails. -/
theorem trails_roundtrip_witness :
    (∀ r ∈ ([⟨1, 2, 0, 0, 0, 0, true, [5, 6], [7, 8], 2, 2⟩,
             ⟨3, 4, 0, 0, 0, 0, true, [9, 10, 0], [11, 12, 0], 2, 3⟩] : List Rocket),
      r.trailLen ≤ r.trailX.length ∧ r.trailLen ≤ r.trailY.length) ∧
    decodeTrails (encodeTrails
        [⟨1, 2, 0, 0, 0, 0, true, [5, 6], [7, 8], 2, 2⟩,
         ⟨3, 4, 0, 0, 0, 0, true, [9, 10, 0], [11, 12, 0], 2, 3⟩])
      = some [([5, 6], [7, 8]), ([9, 10], [11, 12])] := by
  have hinv : ∀ r ∈ ([⟨1, 2, 0, 0, 0, 0, true, [5, 6], [7, 8], 2, 2⟩,
      ⟨3, 4, 0, 0, 0, 0, true, [9, 10, 0], [11, 12, 0], 2, 3⟩] : List Rocket),
      r.trailLen ≤ r.trailX.length ∧ r.trailLen ≤ r.trailY.length := by decide
  refine ⟨hinv, ?_⟩
  rw [trails_roundtrip _ hinv]
  rfl

/-- Pixel from include/nbody.h: byte fields in memory order b, g, r, so
that writing the struct emits a BGR triple. -/
structure Pixel where
  b : ℕ
  g : ℕ
  r : ℕ
deriving DecidableEq, Repr

instance : Inhabited Pixel := ⟨⟨0, 0, 0⟩⟩

/-- row_size from bmp_io.c line 23: (w * 3 + 3) masked with the complement
of 3, i.e. rounded down to a multiple of 4. -/
def bmpRowSize (w : ℕ) : ℕ := (w * 3 + 3) / 4 * 4

/-- Four little-endian bytes written the way the C header initializer does:
shift right and mask with 0xFF. -/
def le32c (v : ℕ) : List ℕ :=
  [v &&& 255, (v >>> 8) &&& 255, (v >>> 16) &&& 255, (v >>> 24) &&& 255]

/-- The 54-byte header built by write_bmp (bmp_io.c lines 28-46), byte for
byte. -/
def bmpHeader (w h : ℕ) : List ℕ :=
  [66, 77]
  ++ le32c (54 + bmpRowSize w * h)
  ++ [0, 0, 0, 0]
  ++ [54, 0, 0, 0]
  ++ [40, 0, 0, 0]
  ++ le32c w
  ++ le32c h
  ++ [1, 0]
  ++ [24, 0]
  ++ [0, 0, 0, 0]
  ++ le32c (bmpRowSize w * h)
  ++ [0, 0, 0, 0] ++ [0, 0, 0, 0] ++ [0, 0, 0, 0] ++ [0, 0, 0, 0]

/-- fwrite of one Pixel struct (bmp_io.c line 57): its three bytes in
declaration order b, g, r. -/
def pixelBytes (p : Pixel) : List ℕ := [p.b, p.g, p.r]

/-- One written row (bmp_io.c lines 55-61): the w pixels of buffer row y in
order, then the zero padding up to the 4-byte boundary. -/
def bmpRow (img : List Pixel) (w y : ℕ) : List ℕ :=
  ((List.range w).map (fun x => pixelBytes (img.getD (y * w + x) default))).flatten
  ++ List.replicate (bmpRowSize w - w * 3) 0

/-- write_bmp from bmp_io.c lines 15-65 as the byte stream it emits:
header, then rows for y = h-1 down to 0. -/
def write_bmp (img : List Pixel) (w h : ℕ) : List ℕ :=
  bmpHeader w h ++ ((List.range h).reverse.map (bmpRow img w)).flatten

/-- Little-endian u32 serialization as the spec describes it. -/
def le32s (v : ℕ) : List ℕ :=
  [v % 256, v / 256 % 256, v / 65536 % 256, v / 16777216 % 256]

/-- Little-endian u16 serialization. -/
def le16s (v : ℕ) : List ℕ := [v % 256, v / 256 % 256]

/-- The header exactly as the claim words it, including the two reserved
u32 zero fields it asserts. -/
def specHeaderClaim (w h : ℕ) : List ℕ :=
  [66, 77]
  ++ le32s (54 + bmpRowSize w * h)
  ++ le32s 0 ++ le32s 0
  ++ le32s 54
  ++ le32s 40
  ++ le32s w
  ++ le32s h
  ++ le16s 1
  ++ le16s 24
  ++ le32s 0
  ++ le32s (bmpRowSize w * h)
  ++ le32s 0 ++ le32s 0 ++ le32s 0 ++ le32s 0

/-- The pixel data as the spec words it: bottom row first, each row w BGR
triples padded with zeros to a 4-byte boundary. -/
def specPixelData (img : List Pixel) (w h : ℕ) : List ℕ :=
  ((List.range h).map (fun i => bmpRow img w (h - 1 - i))).flatten

/-- The full file as the claim describes it. -/
def specBmpClaim (img : List Pixel) (w h : ℕ) : List ℕ :=
  specHeaderClaim w h ++ specPixelData img w h

/-- The header with the reserved area corrected to what a 54-byte header
admits: two reserved u16 zero fields (4 zero bytes), not two u32 fields. -/
def specHeaderAmended (w h : ℕ) : List ℕ :=
  [66, 77]
  ++ le32s (54 + bmpRowSize w * h)
  ++ le16s 0 ++ le16s 0
  ++ le32s 54
  ++ le32s 40
  ++ le32s w
  ++ le32s h
  ++ le16s 1
  ++ le16s 24
  ++ le32s 0
  ++ le32s (bmpRowSize w * h)
  ++ le32s 0 ++ le32s 0 ++ le32s 0 ++ le32s 0

/-- The full file with the corrected reserved field. -/
def specBmpAmended (img : List Pixel) (w h : ℕ) : List ℕ :=
  specHeaderAmended w h ++ specPixelData img w h

/-- C10 counterexample: the claim's field list (with two reserved u32 zero
fields) describes a 58-byte header, so it cannot match the 54-byte header
write_bmp emits; at w = h = 1 the emitted file differs from the claimed
layout. -/
theorem bmp_claim_header_mismatch :
    ¬ (write_bmp [⟨1, 2, 3⟩] 1 1 = specBmpClaim [⟨1, 2, 3⟩] 1 1) := by decide

theorem le32_code_eq_spec (v : ℕ) : le32c v = le32s v := by
  unfold le32c le32s
  have h8 : ∀ x : ℕ, x &&& 255 = x % 256 := by
    intro x
    have h := Nat.and_pow_two_sub_one_eq_mod x 8
    norm_num at h
    exact h
  rw [h8, h8, h8, h8, Nat.shiftRight_eq_div_pow, Nat.shiftRight_eq_div_pow,
    Nat.shiftRight_eq_div_pow]

theorem range_reverse_eq (h : ℕ) :
    (List.range h).reverse = (List.range h).map (fun i => h - 1 - i) := by
  conv_lhs => rw [List.range_eq_range']
  rw [List.reverse_range']
  simp

/-- C10 amended: for w, h > 0 (and a file size within the 31-bit range of
the C int computation) write_bmp emits exactly the claimed layout with one
correction: the reserved area after the file size is 4 zero bytes (two u16
fields), not two u32 fields; every other field and the bottom-first padded
BGR pixel data are as claimed. -/
theorem write_bmp_layout (img : List Pixel) (w h : ℕ) (hw : 0 < w) (hh : 0 < h)
    (hsize : 54 + bmpRowSize w * h < 2 ^ 31) :
    write_bmp img w h = specBmpAmended img w h := by
  unfold write_bmp specBmpAmended specPixelData
  have hhead : bmpHeader w h = specHeaderAmended w h := by
    unfold bmpHeader specHeaderAmended
    rw [le32_code_eq_spec, le32_code_eq_spec, le32_code_eq_spec, le32_code_eq_spec]
    norm_num [le32s, le16s]
  rw [hhead, range_reverse_eq, List.map_map]
  rfl

/-- Closed instance of the amended C10 theorem at a 2 by 1 image. -/
theorem write_bmp_layout_witness :
    (0 < 2 ∧ 0 < 1 ∧ 54 + bmpRowSize 2 * 1 < 2 ^ 31) ∧
    write_bmp [⟨1, 2, 3⟩, ⟨4, 5, 6⟩] 2 1 = specBmpAmended [⟨1, 2, 3⟩, ⟨4, 5, 6⟩] 2 1 := by
  exact ⟨⟨by decide, by decide, by decide⟩,
    write_bmp_layout [⟨1, 2, 3⟩, ⟨4, 5, 6⟩] 2 1 (by decide) (by decide) (by decide)⟩

end RocketSim
